import Mathlib

/-!
# Verification of the Seal DKG CLI protocol-orchestration core

Shallow embedding of the `dkg-cli` and `seal-committee` crates
(`crates/dkg-cli/src/main.rs`, `crates/dkg-cli/src/types.rs`,
`crates/seal-committee/src/move_types.rs`, `crates/seal-committee/src/utils.rs`).

Modelling conventions:
* Sui addresses, object ids, group elements, scalars and opaque engine values
  are modelled as `Nat` tokens; equality is the only operation the core
  performs on them.
* Rust `HashMap` values are modelled as association lists with insert-overwrite
  semantics (`hmInsert`/`hmFromList`); `collect` into a `HashMap` keeps the
  last entry for a repeated key, which the model reproduces.
* `anyhow` string errors are mapped, one constructor per distinct error site,
  to the inductive type `DkgError`.
* The external threshold-cryptography engine (`fastcrypto_tbls`) is out of
  scope in the source; it is modelled as an explicit record of functions
  (`Engine`), and theorems quantify over every engine behaviour.
* The BLS12-381 signature primitive (also external, `fastcrypto`) is modelled
  symbolically as an idealized deterministic scheme: a signature records the
  signed byte string and the signing key, and verification recomputes both.
* Filesystem effects are made explicit: `processAll` returns, next to its
  result, the list of protocol-state records written to disk (`saved`) and a
  trace of the authentication/engine events it performed, in order.
-/

/-- Association-list insert with Rust `HashMap::insert` overwrite semantics. -/
def hmInsert {α : Type} (m : List (Nat × α)) (k : Nat) (v : α) : List (Nat × α) :=
  (k, v) :: m.filter (fun p => p.1 ≠ k)

/-- `collect::<HashMap<_,_>>()` over a list of key-value pairs: for a repeated
key the last entry wins. -/
def hmFromList {α : Type} (l : List (Nat × α)) : List (Nat × α) :=
  l.foldl (fun m kv => hmInsert m kv.1 kv.2) []

/-- Lookup in the association-list model of a `HashMap`. -/
def hmLookup {α : Type} (m : List (Nat × α)) (k : Nat) : Option α :=
  m.lookup k

/-- One distinct constructor per distinct `anyhow!`/error site of the CLI. -/
inductive DkgError where
  | FetchFailed
  | InvalidState (id : Nat)
  | NotAMember
  | MemberAddrNotFound
  | InvalidStateForMembers (id : Nat)
  | MemberInfoMissing
  | NotRegistered (addr : Nat)
  | KeyMismatch
  | RoleMismatch
  | InvalidRotationRole
  | EngineFailure
  | NoFilesFound
  | InsufficientMessages (expected got : Nat)
  | SigningPkNotFound (sender : Nat)
  | SignatureInvalid
  | MissingMapping
  | MappingNotFound (sender : Nat)
  | MissingExpectedPks
  | PartialPkNotFound (oldId : Nat)
  | RotationVerifyFailed (sender : Nat)
  | ProtocolComplaint (sender : Nat)
  | MergeComplaint
  deriving DecidableEq, Repr

/-- `MemberInfo` from `move_types.rs`: the on-chain registration record of a
member (the `url` string is abstracted as a `Nat`). -/
structure MemberInfo where
  enc_pk : Nat
  signing_pk : Nat
  url : Nat
  deriving DecidableEq, Repr

/-- `CommitteeState` from `move_types.rs`. The `members_info` registration
table is a Move `VecMap`, i.e. a list of entries. `PostDKG`'s extra payload
(partial pks, pk, approvals) is carried but never inspected by the core. -/
inductive CommitteeState where
  | Init (members_info : List (Nat × MemberInfo))
  | PostDKG (members_info : List (Nat × MemberInfo)) (partial_pks : List (List Nat))
      (pk : List Nat) (approvals : List Nat)
  | Finalized
  deriving DecidableEq, Repr

/-- `SealCommittee` from `move_types.rs`. -/
structure SealCommittee where
  id : Nat
  threshold : Nat
  members : List Nat
  state : CommitteeState
  old_committee_id : Option Nat
  deriving DecidableEq, Repr

/-- `SealCommittee::get_party_id`: first position of the address in the member
list, error if absent. -/
def SealCommittee.get_party_id (c : SealCommittee) (addr : Nat) : Except DkgError Nat :=
  match c.members.findIdx? (fun a => a == addr) with
  | some idx => .ok idx
  | none => .error .MemberAddrNotFound

/-- `SealCommittee::is_init`: error unless the state is `Init`. -/
def SealCommittee.is_init (c : SealCommittee) : Except DkgError Unit :=
  match c.state with
  | .Init _ => .ok ()
  | _ => .error (.InvalidState c.id)

/-- `SealCommittee::contains`. -/
def SealCommittee.contains (c : SealCommittee) (addr : Nat) : Bool :=
  c.members.contains addr

/-- `ParsedMemberInfo` from `move_types.rs`. -/
structure ParsedMemberInfo where
  party_id : Nat
  address : Nat
  enc_pk : Nat
  signing_pk : Nat
  deriving DecidableEq, Repr

/-- The registration table of a committee state, when it has one. -/
def CommitteeState.membersInfo : CommitteeState → Option (List (Nat × MemberInfo))
  | .Init mi => some mi
  | .PostDKG mi _ _ _ => some mi
  | .Finalized => none

/-- The per-member map-and-collect loop of `get_members_info`: walks the member
list in order (party id = position), fails at the first member that has no
entry in the registration map (`collect::<Result<_,_>>` short-circuits). -/
def buildMembers (info_map : List (Nat × MemberInfo)) :
    List Nat → Nat → Except DkgError (List (Nat × ParsedMemberInfo))
  | [], _ => .ok []
  | addr :: rest, pid =>
    match hmLookup info_map addr with
    | none => .error (.NotRegistered addr)
    | some info =>
      match buildMembers info_map rest (pid + 1) with
      | .error e => .error e
      | .ok tail => .ok ((addr, ⟨pid, addr, info.enc_pk, info.signing_pk⟩) :: tail)

/-- `SealCommittee::get_members_info`: builds the address-keyed map of parsed
members. The registration entries and the final result are both collected into
`HashMap`s, modelled by `hmFromList`. -/
def SealCommittee.get_members_info (c : SealCommittee) :
    Except DkgError (List (Nat × ParsedMemberInfo)) :=
  match c.state.membersInfo with
  | none => .error (.InvalidStateForMembers c.id)
  | some infos =>
    match buildMembers (hmFromList infos) c.members 0 with
    | .error e => .error e
    | .ok l => .ok (hmFromList l)

/-- `build_new_to_old_map` from `utils.rs`: for each position `party_id` of the
new member list, insert `party_id ↦ old committee position` when the address
is found in the old committee. Keys (new positions) are pairwise distinct, so
the `HashMap` is modelled by the association list of successful lookups. -/
def buildMapFrom (old_committee : SealCommittee) :
    List Nat → Nat → List (Nat × Nat)
  | [], _ => []
  | addr :: rest, party_id =>
    match old_committee.get_party_id addr with
    | .ok old_party_id => (party_id, old_party_id) :: buildMapFrom old_committee rest (party_id + 1)
    | .error _ => buildMapFrom old_committee rest (party_id + 1)

/-- `build_new_to_old_map` entry point: enumerate from position 0. -/
def build_new_to_old_map (new_committee old_committee : SealCommittee) :
    List (Nat × Nat) :=
  buildMapFrom old_committee new_committee.members 0

section SignatureScheme

/-- A DKG protocol `Message` (`fastcrypto_tbls::dkg_v1::Message`): opaque to
the core except for its `sender` field; the rest of the payload is abstracted
as a byte list. -/
structure Message where
  sender : Nat
  payload : List Nat
  deriving DecidableEq, Repr

/-- The canonical (BCS) byte encoding of a `Message`, modelled by an injective
encoding function. -/
def bcsEncodeMessage (m : Message) : List Nat :=
  m.sender :: m.payload

/-- Symbolic BLS12-381 signature: records the signed bytes and the signing
key. The real primitive is external to the repository; this is the idealized
deterministic scheme the spec assumes of it. -/
structure BlsSignature where
  bytes : List Nat
  key : Nat
  deriving DecidableEq, Repr

/-- Symbolic BLS signing. -/
def blsSign (sk : Nat) (bytes : List Nat) : BlsSignature :=
  ⟨bytes, sk⟩

/-- Public key corresponding to a secret key (injective correspondence). -/
def blsPkOfSk (sk : Nat) : Nat := sk

/-- Symbolic BLS verification: the signature must be over exactly these bytes
with the secret key corresponding to `pk`. -/
def blsVerify (pk : Nat) (bytes : List Nat) (sig : BlsSignature) : Bool :=
  sig.bytes == bytes && blsPkOfSk sig.key == pk

/-- `SignedMessage` from `dkg-cli/src/types.rs`. -/
structure SignedMessage where
  message : Message
  signature : BlsSignature
  deriving DecidableEq, Repr

/-- `sign_message` from `dkg-cli/src/types.rs`: BCS-encode, sign the bytes. -/
def sign_message (message : Message) (sk : Nat) : SignedMessage :=
  { message := message, signature := blsSign sk (bcsEncodeMessage message) }

/-- `verify_signature` from `dkg-cli/src/types.rs`: re-encode the carried
message and check the signature against the given public key. -/
def verify_signature (signed_msg : SignedMessage) (pk : Nat) : Except DkgError Unit :=
  if blsVerify pk (bcsEncodeMessage signed_msg.message) signed_msg.signature then
    .ok ()
  else
    .error .SignatureInvalid

end SignatureScheme

section Coordinator

/-- `fastcrypto_tbls::nodes::Node`: party id, encryption public key, weight. -/
structure Node where
  id : Nat
  pk : Nat
  weight : Nat
  deriving DecidableEq, Repr

/-- `ProcessedMessage` (`fastcrypto_tbls::dkg_v1`): the core reads only the
echoed message and the optional complaint. -/
structure ProcessedMessage where
  message : Message
  complaint : Option Nat
  deriving DecidableEq, Repr

/-- `Confirmation` (`fastcrypto_tbls::dkg_v1`): the core reads only the
complaint list. -/
structure Confirmation where
  complaints : List Nat
  deriving DecidableEq, Repr

/-- `InitializedConfig` from `dkg-cli/src/types.rs` (persisted protocol
configuration). `nodes : Nodes` is modelled by its node list
(`Nodes::num_nodes()` is its length); the `HashMap` fields are association
lists. -/
structure InitializedConfig where
  my_party_id : Nat
  nodes : List Node
  committee_id : Nat
  threshold : Nat
  signing_pks : List (Nat × Nat)
  old_threshold : Option Nat
  new_to_old_mapping : Option (List (Nat × Nat))
  expected_old_pks : Option (List (Nat × Nat))
  my_old_share : Option Nat
  my_old_pk : Option Nat
  deriving DecidableEq, Repr

/-- `DkgState` from `dkg-cli/src/types.rs` (the persisted protocol state).
`UsedProcessedMessages` and `Output` are opaque engine values (`Nat`). -/
structure DkgState where
  config : InitializedConfig
  my_message : Option Message
  received_messages : List (Nat × Message)
  processed_messages : List ProcessedMessage
  confirmation : Option (Confirmation × Nat)
  output : Option Nat
  deriving DecidableEq, Repr

/-- The external DKG engine capability (`fastcrypto_tbls` `Party`), out of
scope in the source; theorems quantify over every behaviour. Engine failures
are opaque (`Except Unit`). -/
structure Engine where
  mkNodes : List Node → Except Unit (List Node)
  newParty : Except Unit Unit
  createMsg : Except Unit Message
  processMessage : Message → Except Unit ProcessedMessage
  processMessageCheckPk : Message → Nat → Except Unit ProcessedMessage
  merge : List ProcessedMessage → Except Unit (Confirmation × Nat)
  completeRotation : Nat → List (Nat × Nat) → Except Unit Nat
  completeFresh : Nat → Except Unit Nat

/-- Observable events of a `ProcessAll` run, in order: signature verification
of a sender's message, a message being handed to the engine's processing entry
point, the merge call, and the completion call (`true` = rotation variant). -/
inductive Event where
  | verified (sender : Nat)
  | engineProcessed (sender : Nat)
  | merged
  | completed (rotation : Bool)
  deriving DecidableEq, Repr

/-- The quorum precondition of `ProcessAll` (main.rs lines 381-399): rotation
needs at least `old_threshold` messages, fresh DKG needs exactly
`nodes.num_nodes()` messages. Purely a count check. -/
def quorumCheck (cfg : InitializedConfig) (count : Nat) : Except DkgError Unit :=
  match cfg.old_threshold with
  | some old_threshold =>
    if count < old_threshold then
      .error (.InsufficientMessages old_threshold count)
    else
      .ok ()
  | none =>
    if count ≠ cfg.nodes.length then
      .error (.InsufficientMessages cfg.nodes.length count)
    else
      .ok ()

/-- Routing of a verified message (main.rs lines 428-464): rotation resolves
the sender's expected old partial public key through the persisted new-to-old
mapping and calls the rotation-checked engine entry point; fresh DKG calls the
plain one. The boolean records whether the engine was actually invoked (the
lookup errors happen before the engine call). -/
def routeMessage (e : Engine) (cfg : InitializedConfig) (msg : Message) :
    Except DkgError ProcessedMessage × Bool :=
  if cfg.old_threshold.isSome then
    match cfg.new_to_old_mapping with
    | none => (.error .MissingMapping, false)
    | some new_to_old_mapping =>
      match hmLookup new_to_old_mapping msg.sender with
      | none => (.error (.MappingNotFound msg.sender), false)
      | some old_party_id =>
        match cfg.expected_old_pks with
        | none => (.error .MissingExpectedPks, false)
        | some expected_old_pks =>
          match hmLookup expected_old_pks old_party_id with
          | none => (.error (.PartialPkNotFound old_party_id), false)
          | some expected_pk =>
            match e.processMessageCheckPk msg expected_pk with
            | .error _ => (.error (.RotationVerifyFailed msg.sender), true)
            | .ok proc => (.ok proc, true)
  else
    match e.processMessage msg with
    | .error _ => (.error .EngineFailure, true)
    | .ok proc => (.ok proc, true)

/-- Handling of one signed message in the `ProcessAll` loop (main.rs lines
413-475): verify the signature against the sender's registered signing key,
route to the engine, and fail the whole command on a complaint. Returns the
result together with the events performed, in order. -/
def processOne (e : Engine) (cfg : InitializedConfig) (signed_msg : SignedMessage) :
    Except DkgError ProcessedMessage × List Event :=
  let sender := signed_msg.message.sender
  match hmLookup cfg.signing_pks sender with
  | none => (.error (.SigningPkNotFound sender), [])
  | some sender_signing_pk =>
    match verify_signature signed_msg sender_signing_pk with
    | .error e' => (.error e', [])
    | .ok _ =>
      match routeMessage e cfg signed_msg.message with
      | (.error e', engine_called) =>
        (.error e',
          [.verified sender] ++
            (if engine_called then [.engineProcessed sender] else []))
      | (.ok proc, _) =>
        match proc.complaint with
        | some _ =>
          (.error (.ProtocolComplaint proc.message.sender),
            [.verified sender, .engineProcessed sender])
        | none => (.ok proc, [.verified sender, .engineProcessed sender])

/-- The `for signed_msg in messages` loop of `ProcessAll`: stops at the first
failing message; the processed messages pushed before the failure are
returned either way (they are what the code pushed onto
`state.processed_messages`). -/
def processLoop (e : Engine) (cfg : InitializedConfig) :
    List SignedMessage → Except DkgError Unit × List ProcessedMessage × List Event
  | [] => (.ok (), [], [])
  | signed_msg :: rest =>
    match processOne e cfg signed_msg with
    | (.error e', evs) => (.error e', [], evs)
    | (.ok proc, evs) =>
      match processLoop e cfg rest with
      | (res, procs, evs') => (res, proc :: procs, evs ++ evs')

/-- Everything `ProcessAll` does that is observable: its result, the final
in-memory state, the list of states written to disk by `DkgState::save` (in
order), and the event trace. -/
structure RunResult where
  result : Except DkgError Unit
  finalState : DkgState
  saved : List DkgState
  trace : List Event
  deriving Repr

/-- `Commands::ProcessAll` (main.rs lines 332-542), after file decoding:
givens are the persisted state and the decoded signed messages. Empty-directory
check, quorum check, party creation, per-message loop, merge, complaint check,
completion; `DkgState::save` is called only in the merge-complaint branch. -/
def processAll (e : Engine) (st : DkgState) (messages : List SignedMessage) : RunResult :=
  if messages.isEmpty then
    { result := .error .NoFilesFound, finalState := st, saved := [], trace := [] }
  else
    match quorumCheck st.config messages.length with
    | .error e' => { result := .error e', finalState := st, saved := [], trace := [] }
    | .ok () =>
      match e.newParty with
      | .error _ =>
        { result := .error .EngineFailure, finalState := st, saved := [], trace := [] }
      | .ok () =>
        match processLoop e st.config messages with
        | (res, procs, trace) =>
          let st1 : DkgState :=
            { st with processed_messages := st.processed_messages ++ procs }
          match res with
          | .error e' =>
            { result := .error e', finalState := st1, saved := [], trace := trace }
          | .ok () =>
            match e.merge st1.processed_messages with
            | .error _ =>
              { result := .error .EngineFailure, finalState := st1, saved := [],
                trace := trace ++ [.merged] }
            | .ok (confirmation, used_msgs) =>
              if confirmation.complaints ≠ [] then
                let st2 : DkgState :=
                  { st1 with confirmation := some (confirmation, used_msgs) }
                { result := .error .MergeComplaint, finalState := st2,
                  saved := [st2], trace := trace ++ [.merged] }
              else
                let st2 : DkgState :=
                  { st1 with confirmation := some (confirmation, used_msgs) }
                match st2.config.old_threshold with
                | some _ =>
                  match st2.config.new_to_old_mapping with
                  | none =>
                    { result := .error .MissingMapping, finalState := st2,
                      saved := [], trace := trace ++ [.merged] }
                  | some new_to_old_mapping =>
                    match e.completeRotation used_msgs new_to_old_mapping with
                    | .error _ =>
                      { result := .error .EngineFailure, finalState := st2,
                        saved := [], trace := trace ++ [.merged, .completed true] }
                    | .ok output =>
                      { result := .ok (), finalState := { st2 with output := some output },
                        saved := [], trace := trace ++ [.merged, .completed true] }
                | none =>
                  match e.completeFresh used_msgs with
                  | .error _ =>
                    { result := .error .EngineFailure, finalState := st2,
                      saved := [], trace := trace ++ [.merged, .completed false] }
                  | .ok output =>
                    { result := .ok (), finalState := { st2 with output := some output },
                      saved := [], trace := trace ++ [.merged, .completed false] }

end Coordinator

section CreateMessageCmd

/-- `KeysFile` from `dkg-cli/src/types.rs` (the local identity). -/
structure KeysFile where
  enc_sk : Nat
  enc_pk : Nat
  signing_sk : Nat
  signing_pk : Nat
  deriving DecidableEq, Repr

/-- `PartialKeyServerInfo` from `move_types.rs`. -/
structure PartialKeyServerInfo where
  ks_obj_id : Nat
  party_id : Nat
  partial_pk : Nat
  deriving DecidableEq, Repr

/-- The read-only ledger collaborator: committee objects and partial
key-server records, fetched by object id (network plumbing abstracted). -/
structure ChainEnv where
  fetchCommittee : Nat → Except Unit SealCommittee
  fetchPartialInfos : Nat → Except Unit (List PartialKeyServerInfo)

/-- `G2Element::generator() * scalar` (main.rs line 143), symbolic. -/
def g2MulGenerator (scalar : Nat) : Nat := scalar

/-- What `Commands::CreateMessage` produces: the signed message artifact
written to `message_<party_id>.json` (when this party creates one) and the
protocol state written to the run directory by `DkgState::save`. -/
structure CreateResult where
  message_file : Option (Nat × SignedMessage)
  savedState : DkgState
  deriving Repr

/-- The rotation-resolution block of `Commands::CreateMessage` (main.rs lines
200-257): branch on `old_committee_id`; fresh DKG rejects a supplied old
share; rotation fetches the old committee and the old partial pks, builds the
new-to-old map, and enforces the role invariant. -/
def resolveRotation (env : ChainEnv) (committee : SealCommittee) (my_address : Nat)
    (my_old_share : Option Nat) :
    Except DkgError (Option Nat × Option (List (Nat × Nat)) × Option (List (Nat × Nat))) :=
  match committee.old_committee_id with
  | none =>
    if my_old_share.isSome then
      .error .RoleMismatch
    else
      .ok (none, none, none)
  | some old_committee_id =>
    match env.fetchCommittee old_committee_id with
    | .error _ => .error .FetchFailed
    | .ok old_committee =>
      let old_threshold := some old_committee.threshold
      let new_to_old_mapping := build_new_to_old_map committee old_committee
      match env.fetchPartialInfos old_committee_id with
      | .error _ => .error .FetchFailed
      | .ok old_partial_key_infos =>
        let expected_old_pks :=
          hmFromList (old_partial_key_infos.map (fun info => (info.party_id, info.partial_pk)))
        match my_old_share with
        | some _ =>
          if ¬ old_committee.contains my_address then
            .error .InvalidRotationRole
          else
            .ok (old_threshold, some new_to_old_mapping, some expected_old_pks)
        | none =>
          if old_committee.contains my_address then
            .error .InvalidRotationRole
          else
            .ok (old_threshold, some new_to_old_mapping, some expected_old_pks)

/-- The engine calls of message creation (main.rs lines 276-287):
`Nodes::new`, `Party::new_advanced`, `party.create_message`. -/
def mkMyMessage (e : Engine) (nodes0 : List Node) : Except DkgError Message :=
  match e.mkNodes nodes0 with
  | .error _ => .error .EngineFailure
  | .ok _ =>
    match e.newParty with
    | .error _ => .error .EngineFailure
    | .ok _ =>
      match e.createMsg with
      | .error _ => .error .EngineFailure
      | .ok m => .ok m

/-- The tail of `Commands::CreateMessage` once the role is resolved (main.rs
lines 259-330): build the node list and signing-key map from all parsed
members (HashMap iteration modelled in association-list order), create and
sign this party's message when the role calls for one, and assemble the
protocol state handed to `DkgState::save`. -/
def assembleState (e : Engine) (committee_id : Nat) (local_keys : KeysFile)
    (committee : SealCommittee) (members_info : List (Nat × ParsedMemberInfo))
    (my_party_id : Nat) (my_old_share my_old_pk : Option Nat)
    (old_threshold : Option Nat) (new_to_old_mapping expected_old_pks :
      Option (List (Nat × Nat))) : Except DkgError CreateResult :=
  let nodes0 := members_info.map (fun p => Node.mk p.2.party_id p.2.enc_pk 1)
  let signing_pks := hmFromList (members_info.map (fun p => (p.2.party_id, p.2.signing_pk)))
  -- Create message: fresh DKG always, rotation only for continuing members.
  let msgStep : Except DkgError (Option Message) :=
    if old_threshold.isNone ∨ my_old_share.isSome then
      match mkMyMessage e nodes0 with
      | .error er => .error er
      | .ok m => .ok (some m)
    else
      .ok none
  match msgStep with
  | .error er => .error er
  | .ok my_message =>
    match e.mkNodes nodes0 with
    | .error _ => .error .EngineFailure
    | .ok nodes =>
      .ok
        { message_file :=
            my_message.map (fun m => (my_party_id, sign_message m local_keys.signing_sk))
          savedState :=
            { config :=
                { my_party_id := my_party_id
                  nodes := nodes
                  committee_id := committee_id
                  threshold := committee.threshold
                  signing_pks := signing_pks
                  old_threshold := old_threshold
                  new_to_old_mapping := new_to_old_mapping
                  expected_old_pks := expected_old_pks
                  my_old_share := my_old_share
                  my_old_pk := my_old_pk }
              my_message := my_message
              received_messages := []
              processed_messages := []
              confirmation := none
              output := none } }

/-- `Commands::CreateMessage` (main.rs lines 129-331), after key loading and
old-share hex decoding: validate the fetched committee (Init state, caller
membership, registered keys vs. local identity), resolve rotation parameters
and the caller's role, build nodes and the signing-key map, create and sign
this party's message when the role calls for one, and persist the initial
protocol state. -/
def createMessage (e : Engine) (env : ChainEnv) (my_address committee_id : Nat)
    (local_keys : KeysFile) (old_share : Option Nat) : Except DkgError CreateResult :=
  -- Parse old share if provided (hex/BCS decoding abstracted away).
  let my_old_share := old_share
  let my_old_pk := old_share.map g2MulGenerator
  -- Fetch current committee from onchain.
  match env.fetchCommittee committee_id with
  | .error _ => .error .FetchFailed
  | .ok committee =>
    -- Validate committee state is Init and contains my address.
    match committee.is_init with
    | .error er => .error er
    | .ok _ =>
      if ¬ committee.contains my_address then
        .error .NotAMember
      else
        match committee.get_members_info with
        | .error er => .error er
        | .ok members_info =>
          match hmLookup members_info my_address with
          | none => .error .MemberInfoMissing
          | some my_member_info =>
            -- Validate PK locally vs registration onchain.
            if local_keys.enc_pk ≠ my_member_info.enc_pk ∨
                local_keys.signing_pk ≠ my_member_info.signing_pk then
              .error .KeyMismatch
            else
              match resolveRotation env committee my_address my_old_share with
              | .error er => .error er
              | .ok (old_threshold, new_to_old_mapping, expected_old_pks) =>
                assembleState e committee_id local_keys committee members_info
                  my_member_info.party_id my_old_share my_old_pk
                  old_threshold new_to_old_mapping expected_old_pks

end CreateMessageCmd


section MapLemmas

theorem lookup_cons_eq {α : Type} (p : Nat × α) (t : List (Nat × α)) (j : Nat) :
    ((p :: t).lookup j) = if j = p.1 then some p.2 else t.lookup j := by
  rcases p with ⟨a, b⟩
  by_cases h : j = a
  · simp [List.lookup, h]
  · have hb : (j == a) = false := by simp [h]
    simp [List.lookup, hb, h]

theorem lookup_eq_none_of_not_mem_keys {α : Type} {l : List (Nat × α)} {k : Nat}
    (h : k ∉ l.map Prod.fst) : l.lookup k = none := by
  induction l with
  | nil => rfl
  | cons p t ih =>
    simp only [List.map_cons, List.mem_cons, not_or] at h
    rw [lookup_cons_eq, if_neg h.1, ih h.2]

theorem lookup_append {α : Type} (xs ys : List (Nat × α)) (k : Nat) :
    (xs ++ ys).lookup k = ((xs.lookup k).orElse (fun _ => ys.lookup k)) := by
  induction xs with
  | nil => simp [List.lookup]
  | cons p t ih =>
    rw [List.cons_append, lookup_cons_eq, lookup_cons_eq]
    by_cases h : k = p.1
    · simp [h, Option.orElse]
    · simp only [if_neg h, ih]

theorem lookup_filter_ne {α : Type} (m : List (Nat × α)) (k j : Nat) :
    (m.filter (fun p => p.1 ≠ k)).lookup j =
      if j = k then none else m.lookup j := by
  induction m with
  | nil => simp [List.lookup]
  | cons p t ih =>
    by_cases hpk : p.1 = k
    · have hf : (p :: t).filter (fun p => p.1 ≠ k) = t.filter (fun p => p.1 ≠ k) := by
        simp [List.filter_cons, hpk]
      rw [hf, ih, lookup_cons_eq]
      by_cases hjk : j = k
      · simp [hjk]
      · have hjp : ¬ (j = p.1) := by rw [hpk]; exact hjk
        rw [if_neg hjk, if_neg hjk, if_neg hjp]
    · have hf : (p :: t).filter (fun p => p.1 ≠ k) =
          p :: t.filter (fun p => p.1 ≠ k) := by
        simp [List.filter_cons, hpk]
      rw [hf, lookup_cons_eq, lookup_cons_eq, ih]
      by_cases hjp : j = p.1
      · have hjk : ¬ j = k := by rw [hjp]; exact fun h => hpk h
        rw [if_pos hjp, if_neg hjk, if_pos hjp]
      · rw [if_neg hjp, if_neg hjp]

theorem hmLookup_hmInsert {α : Type} (m : List (Nat × α)) (k j : Nat) (v : α) :
    hmLookup (hmInsert m k v) j = if j = k then some v else hmLookup m j := by
  unfold hmLookup hmInsert
  rw [lookup_cons_eq, lookup_filter_ne]
  by_cases h : j = k <;> simp [h]

theorem hmFromList_append_single {α : Type} (l : List (Nat × α)) (kv : Nat × α) :
    hmFromList (l ++ [kv]) = hmInsert (hmFromList l) kv.1 kv.2 := by
  simp [hmFromList, List.foldl_append]

theorem hmLookup_hmFromList {α : Type} (l : List (Nat × α)) (k : Nat) :
    hmLookup (hmFromList l) k = l.reverse.lookup k := by
  induction l using List.reverseRecOn with
  | nil => rfl
  | append_singleton t kv ih =>
    rw [hmFromList_append_single, hmLookup_hmInsert, List.reverse_append]
    simp only [List.reverse_singleton, List.singleton_append]
    rw [lookup_cons_eq, ih]

theorem lookup_reverse_of_nodup_keys {α : Type} {l : List (Nat × α)}
    (h : (l.map Prod.fst).Nodup) (k : Nat) :
    l.reverse.lookup k = l.lookup k := by
  induction l with
  | nil => rfl
  | cons p t ih =>
    simp only [List.map_cons, List.nodup_cons] at h
    have hrhs : (p :: t).lookup k = if k = p.1 then some p.2 else t.lookup k :=
      lookup_cons_eq p t k
    rw [List.reverse_cons, lookup_append, ih h.2, hrhs]
    by_cases hk : k = p.1
    · have ht : t.lookup k = none :=
        lookup_eq_none_of_not_mem_keys (by rw [hk]; exact h.1)
      rw [ht, if_pos hk]
      simp [Option.orElse, lookup_cons_eq, hk]
    · rw [if_neg hk]
      have hsing : ([p].lookup k) = none := by
        rw [lookup_cons_eq, if_neg hk]; rfl
      cases hlt : t.lookup k with
      | none => simp [Option.orElse, hsing]
      | some v => simp [Option.orElse]

theorem hmLookup_hmFromList_of_nodup {α : Type} {l : List (Nat × α)}
    (h : (l.map Prod.fst).Nodup) (k : Nat) :
    hmLookup (hmFromList l) k = l.lookup k := by
  rw [hmLookup_hmFromList, lookup_reverse_of_nodup_keys h]

end MapLemmas


section LoopLemmas

theorem processLoop_append (e : Engine) (cfg : InitializedConfig)
    (xs ys : List SignedMessage) :
    processLoop e cfg (xs ++ ys) =
      match processLoop e cfg xs with
      | (.error er, procs, evs) => (.error er, procs, evs)
      | (.ok _, procs, evs) =>
        ((processLoop e cfg ys).1, procs ++ (processLoop e cfg ys).2.1,
          evs ++ (processLoop e cfg ys).2.2) := by
  induction xs with
  | nil =>
    simp only [List.nil_append, processLoop]
  | cons x t ih =>
    simp only [List.cons_append, processLoop]
    rcases hx : processOne e cfg x with ⟨res, evs⟩
    cases res with
    | error er => rfl
    | ok proc =>
      simp only [List.append_eq] at *
      rw [ih]
      rcases ht : processLoop e cfg t with ⟨rt, pt, et⟩
      cases rt with
      | error er => simp
      | ok u => simp

theorem routeMessage_error_cases (e : Engine) (cfg : InitializedConfig)
    (msg : Message) (er : DkgError) (b : Bool)
    (h : routeMessage e cfg msg = (.error er, b)) :
    er = .MissingMapping ∨ (∃ s, er = .MappingNotFound s) ∨
      er = .MissingExpectedPks ∨ (∃ o, er = .PartialPkNotFound o) ∨
      (∃ s, er = .RotationVerifyFailed s) ∨ er = .EngineFailure := by
  unfold routeMessage at h
  repeat' split at h
  all_goals simp only [Prod.mk.injEq, Except.error.injEq] at h
  all_goals try exact absurd h.1 (by simp)
  all_goals cases h.1
  all_goals simp

theorem verify_signature_error_eq (sm : SignedMessage) (pk : Nat) (er : DkgError)
    (h : verify_signature sm pk = .error er) : er = .SignatureInvalid := by
  unfold verify_signature at h
  split at h <;> simp_all

theorem processOne_error_cases (e : Engine) (cfg : InitializedConfig)
    (sm : SignedMessage) (er : DkgError) (evs : List Event)
    (h : processOne e cfg sm = (.error er, evs)) :
    (∃ s, er = .SigningPkNotFound s) ∨ er = .SignatureInvalid ∨
      er = .MissingMapping ∨ (∃ s, er = .MappingNotFound s) ∨
      er = .MissingExpectedPks ∨ (∃ o, er = .PartialPkNotFound o) ∨
      (∃ s, er = .RotationVerifyFailed s) ∨ er = .EngineFailure ∨
      (∃ s, er = .ProtocolComplaint s) := by
  unfold processOne at h
  cases hpk : hmLookup cfg.signing_pks sm.message.sender with
  | none =>
    simp only [hpk, Prod.mk.injEq, Except.error.injEq] at h
    exact Or.inl ⟨_, h.1.symm⟩
  | some pk =>
    simp only [hpk] at h
    cases hv : verify_signature sm pk with
    | error e1 =>
      simp only [hv, Prod.mk.injEq, Except.error.injEq] at h
      have h2 := verify_signature_error_eq sm pk e1 hv
      subst h2
      exact Or.inr (Or.inl h.1.symm)
    | ok u =>
      simp only [hv] at h
      rcases hr : routeMessage e cfg sm.message with ⟨res, b⟩
      cases res with
      | error e1 =>
        simp only [hr, Prod.mk.injEq, Except.error.injEq] at h
        have hrc := routeMessage_error_cases e cfg sm.message e1 b hr
        cases h.1
        tauto
      | ok proc =>
        simp only [hr] at h
        cases hc : proc.complaint with
        | some c =>
          simp only [hc, Prod.mk.injEq, Except.error.injEq] at h
          cases h.1
          simp
        | none =>
          simp only [hc, Prod.mk.injEq] at h
          exact absurd h.1 (by simp)

theorem processOne_events_shape (e : Engine) (cfg : InitializedConfig)
    (sm : SignedMessage) :
    (processOne e cfg sm).2 = [] ∨
      (processOne e cfg sm).2 = [.verified sm.message.sender] ∨
      (processOne e cfg sm).2 =
        [.verified sm.message.sender, .engineProcessed sm.message.sender] := by
  unfold processOne
  cases hpk : hmLookup cfg.signing_pks sm.message.sender with
  | none => simp [hpk]
  | some pk =>
    cases hv : verify_signature sm pk with
    | error e1 => simp [hpk, hv]
    | ok u =>
      rcases hr : routeMessage e cfg sm.message with ⟨res, b⟩
      cases res with
      | error e1 => cases b <;> simp [hpk, hv, hr]
      | ok proc =>
        cases hc : proc.complaint with
        | some c => simp [hpk, hv, hr, hc]
        | none => simp [hpk, hv, hr, hc]

theorem processLoop_event_kinds (e : Engine) (cfg : InitializedConfig)
    (msgs : List SignedMessage) (ev : Event)
    (h : ev ∈ (processLoop e cfg msgs).2.2) :
    (∃ s, ev = .verified s) ∨ (∃ s, ev = .engineProcessed s) := by
  induction msgs with
  | nil => simp [processLoop] at h
  | cons x t ih =>
    have hshape := processOne_events_shape e cfg x
    rcases hx : processOne e cfg x with ⟨res, evs⟩
    rw [hx] at hshape
    simp only [processLoop, hx] at h
    cases res with
    | error e1 =>
      simp only [] at h
      rcases hshape with h0 | h1 | h2 <;> subst_vars <;> simp_all <;>
        rcases h with h | h <;> first | exact Or.inl ⟨_, h⟩ | exact Or.inr ⟨_, h⟩
    | ok proc =>
      simp only [List.mem_append] at h
      rcases h with h | h
      · rcases hshape with h0 | h1 | h2 <;> subst_vars <;> simp_all <;>
          rcases h with h | h <;> first | exact Or.inl ⟨_, h⟩ | exact Or.inr ⟨_, h⟩
      · exact ih h

theorem processLoop_error_cases (e : Engine) (cfg : InitializedConfig)
    (msgs : List SignedMessage) (er : DkgError) (procs : List ProcessedMessage)
    (tr : List Event) (h : processLoop e cfg msgs = (.error er, procs, tr)) :
    (∃ s, er = .SigningPkNotFound s) ∨ er = .SignatureInvalid ∨
      er = .MissingMapping ∨ (∃ s, er = .MappingNotFound s) ∨
      er = .MissingExpectedPks ∨ (∃ o, er = .PartialPkNotFound o) ∨
      (∃ s, er = .RotationVerifyFailed s) ∨ er = .EngineFailure ∨
      (∃ s, er = .ProtocolComplaint s) := by
  induction msgs generalizing er procs tr with
  | nil => simp [processLoop] at h
  | cons x t ih =>
    rcases hx : processOne e cfg x with ⟨res, evs⟩
    simp only [processLoop, hx] at h
    cases res with
    | error e1 =>
      simp only [Prod.mk.injEq, Except.error.injEq] at h
      exact h.1 ▸ processOne_error_cases e cfg x e1 evs hx
    | ok proc =>
      rcases hl : processLoop e cfg t with ⟨rt, pt, et⟩
      rw [hl] at h
      cases rt with
      | error e1 =>
        simp only [Prod.mk.injEq, Except.error.injEq] at h
        exact h.1 ▸ ih e1 pt et hl
      | ok u => simp at h

theorem isEmpty_false_of_ne_nil {α : Type} {l : List α} (h : l ≠ []) :
    l.isEmpty = false := by
  cases l with
  | nil => exact absurd rfl h
  | cons a t => rfl

theorem processAll_quorum_error (e : Engine) (st : DkgState)
    (msgs : List SignedMessage) (er : DkgError) (hne : msgs ≠ [])
    (hq : quorumCheck st.config msgs.length = .error er) :
    processAll e st msgs =
      { result := .error er, finalState := st, saved := [], trace := [] } := by
  unfold processAll
  simp [isEmpty_false_of_ne_nil hne, hq]

theorem processAll_loop_error (e : Engine) (st : DkgState)
    (msgs : List SignedMessage) (er : DkgError) (procs : List ProcessedMessage)
    (tr : List Event) (hne : msgs ≠ [])
    (hq : quorumCheck st.config msgs.length = .ok ())
    (hp : e.newParty = .ok ())
    (hl : processLoop e st.config msgs = (.error er, procs, tr)) :
    processAll e st msgs =
      { result := .error er,
        finalState := { st with processed_messages := st.processed_messages ++ procs },
        saved := [], trace := tr } := by
  unfold processAll
  simp [isEmpty_false_of_ne_nil hne, hq, hp, hl]

theorem processAll_not_insufficient (e : Engine) (st : DkgState)
    (msgs : List SignedMessage) (a b : Nat) (hne : msgs ≠ [])
    (hq : quorumCheck st.config msgs.length = .ok ()) :
    (processAll e st msgs).result ≠ .error (.InsufficientMessages a b) := by
  unfold processAll
  simp only [isEmpty_false_of_ne_nil hne, Bool.false_eq_true, if_false, hq]
  cases hp : e.newParty with
  | error u => simp
  | ok u =>
    rcases hl : processLoop e st.config msgs with ⟨res, procs, tr⟩
    cases res with
    | error er =>
      simp only []
      intro hcon
      simp only [Except.error.injEq] at hcon
      subst hcon
      rcases processLoop_error_cases e st.config msgs _ procs tr hl with
        ⟨s, h⟩ | h | h | ⟨s, h⟩ | h | ⟨o, h⟩ | ⟨s, h⟩ | h | ⟨s, h⟩ <;> exact absurd h (by simp)
    | ok u2 =>
      simp only []
      repeat' split
      all_goals simp

end LoopLemmas

section PartyIdLemmas

theorem findIdx_beq_some_iff (l : List Nat) (addr j : Nat) :
    l.findIdx? (fun b => b == addr) = some j ↔
      (l.get? j = some addr ∧ ∀ k, k < j → l.get? k ≠ some addr) := by
  induction l generalizing j with
  | nil => simp
  | cons a t ih =>
    rw [List.findIdx?_cons]
    by_cases ha : a = addr
    · have hb : (a == addr) = true := by simp [ha]
      rw [hb, if_pos rfl]
      constructor
      · intro h
        cases h
        subst ha
        exact ⟨by simp, by intro k hk; omega⟩
      · rintro ⟨hg, hmin⟩
        cases j with
        | zero => rfl
        | succ j1 =>
          exact absurd (by simp [ha] : (a :: t).get? 0 = some addr)
            (hmin 0 (Nat.succ_pos j1))
    · have hb : (a == addr) = false := by simp [ha]
      rw [hb]
      simp only [Bool.false_eq_true, if_false, List.findIdx?_succ]
      cases j with
      | zero =>
        simp only [Option.map_eq_some']
        constructor
        · rintro ⟨i, _, hcon⟩; omega
        · rintro ⟨hg, _⟩
          simp only [List.get?_cons_zero, Option.some.injEq] at hg
          exact absurd hg ha
      | succ j1 =>
        simp only [Option.map_eq_some']
        constructor
        · rintro ⟨i, hi, hadd⟩
          have hij : i = j1 := by omega
          subst hij
          rcases (ih i).mp hi with ⟨hg, hmin⟩
          refine ⟨by simpa using hg, ?_⟩
          intro k hk
          cases k with
          | zero => simp [ha]
          | succ k1 =>
            simp only [List.get?_cons_succ]
            exact hmin k1 (by omega)
        · rintro ⟨hg, hmin⟩
          refine ⟨j1, (ih j1).mpr ⟨by simpa using hg, ?_⟩, rfl⟩
          intro k hk
          have := hmin (k + 1) (by omega)
          simpa using this

theorem get_party_id_ok_iff (c : SealCommittee) (addr j : Nat) :
    c.get_party_id addr = .ok j ↔
      (c.members.get? j = some addr ∧ ∀ k, k < j → c.members.get? k ≠ some addr) := by
  unfold SealCommittee.get_party_id
  cases hf : c.members.findIdx? (fun a => a == addr) with
  | some i =>
    simp only [Except.ok.injEq]
    constructor
    · intro h; subst h; exact (findIdx_beq_some_iff _ _ _).mp hf
    · intro h
      have h2 := (findIdx_beq_some_iff c.members addr j).mpr h
      rw [hf] at h2
      exact (Option.some.injEq _ _).mp h2
  | none =>
    simp only []
    constructor
    · intro h; exact absurd h (by simp)
    · rintro ⟨hg, _⟩
      exfalso
      have := List.findIdx?_eq_none_iff.mp hf
      have hmem : addr ∈ c.members := List.get?_mem hg
      have := this addr hmem
      simp at this

theorem get_party_id_error_iff (c : SealCommittee) (addr : Nat) :
    c.get_party_id addr = .error .MemberAddrNotFound ↔ addr ∉ c.members := by
  unfold SealCommittee.get_party_id
  cases hf : c.members.findIdx? (fun a => a == addr) with
  | some i =>
    simp only []
    constructor
    · intro h; exact absurd h (by simp)
    · intro h
      exfalso
      rcases (findIdx_beq_some_iff _ _ _).mp hf with ⟨hg, _⟩
      exact h (List.get?_mem hg)
  | none =>
    constructor
    · intro _ hmem
      have h5 := List.findIdx?_eq_none_iff.mp hf addr hmem
      simp at h5
    · intro _
      rfl

theorem buildMapFrom_lookup_lt (oc : SealCommittee) (addrs : List Nat) (s k : Nat)
    (h : k < s) : hmLookup (buildMapFrom oc addrs s) k = none := by
  induction addrs generalizing s with
  | nil => rfl
  | cons a t ih =>
    unfold buildMapFrom
    cases hg : oc.get_party_id a with
    | ok oid =>
      unfold hmLookup
      rw [lookup_cons_eq, if_neg (by omega)]
      exact ih (s + 1) (by omega)
    | error e1 =>
      exact ih (s + 1) (by omega)

theorem buildMapFrom_lookup (oc : SealCommittee) (addrs : List Nat) (s i : Nat) :
    hmLookup (buildMapFrom oc addrs (s : Nat)) (s + i) =
      (match addrs.get? i with
        | none => none
        | some a =>
          match oc.get_party_id a with
          | .ok oid => some oid
          | .error _ => none) := by
  induction addrs generalizing s i with
  | nil => cases i <;> rfl
  | cons a t ih =>
    cases i with
    | zero =>
      unfold buildMapFrom
      cases hg : oc.get_party_id a with
      | ok oid =>
        unfold hmLookup
        rw [lookup_cons_eq, if_pos (by omega)]
        simp [hg]
      | error e1 =>
        have h0 := buildMapFrom_lookup_lt oc t (s + 1) (s + 0) (by omega)
        rw [h0]
        simp [hg]
    | succ j =>
      unfold buildMapFrom
      cases hg : oc.get_party_id a with
      | ok oid =>
        unfold hmLookup
        rw [lookup_cons_eq, if_neg (by omega)]
        have := ih (s + 1) j
        rw [show s + (j + 1) = (s + 1) + j by omega]
        simpa using this
      | error e1 =>
        have := ih (s + 1) j
        rw [show s + (j + 1) = (s + 1) + j by omega]
        simpa using this

end PartyIdLemmas

/-- C6: the new-to-old party-id map has an entry for new party id `i` exactly
when the address at position `i` of the new committee's member list occurs in
the old committee's member list, and that entry maps `i` to the position of
that address in the old member list (its first occurrence); members absent
from the old list get no entry. -/
theorem c6_new_to_old_map_positions (newC oldC : SealCommittee) (i j : Nat) :
    (hmLookup (build_new_to_old_map newC oldC) i = some j ↔
      ∃ addr, newC.members.get? i = some addr ∧
        oldC.members.get? j = some addr ∧
        ∀ k, k < j → oldC.members.get? k ≠ some addr) ∧
    (hmLookup (build_new_to_old_map newC oldC) i = none ↔
      ∀ addr, newC.members.get? i = some addr → addr ∉ oldC.members) := by
  have hbase := buildMapFrom_lookup oldC newC.members 0 i
  simp only [Nat.zero_add] at hbase
  unfold build_new_to_old_map
  rw [hbase]
  cases hga : newC.members.get? i with
  | none =>
    constructor
    · constructor
      · intro h; exact absurd h (by simp)
      · rintro ⟨addr, haddr, _⟩; exact absurd haddr (by simp)
    · simp
  | some addr =>
    cases hgp : oldC.get_party_id addr with
    | ok oid =>
      simp only [hgp]
      rcases (get_party_id_ok_iff oldC addr oid).mp hgp with ⟨hg, hmin⟩
      constructor
      · constructor
        · intro h
          simp only [Option.some.injEq] at h
          subst h
          exact ⟨addr, rfl, hg, hmin⟩
        · rintro ⟨addr2, haddr2, hg2, hmin2⟩
          simp only [Option.some.injEq] at haddr2
          subst haddr2
          have h6 : oldC.get_party_id addr = .ok j :=
            (get_party_id_ok_iff oldC addr j).mpr ⟨hg2, hmin2⟩
          rw [hgp] at h6
          simp only [Except.ok.injEq] at h6
          rw [h6]
      · constructor
        · intro h; exact absurd h (by simp)
        · intro h
          exfalso
          exact h addr rfl (List.get?_mem hg)
    | error e1 =>
      simp only [hgp]
      have hnotmem : addr ∉ oldC.members := by
        have : e1 = .MemberAddrNotFound := by
          unfold SealCommittee.get_party_id at hgp
          split at hgp <;> simp_all
        subst this
        exact (get_party_id_error_iff oldC addr).mp hgp
      constructor
      · constructor
        · intro h; exact absurd h (by simp)
        · rintro ⟨addr2, haddr2, hg2, _⟩
          simp only [Option.some.injEq] at haddr2
          subst haddr2
          exact absurd (List.get?_mem hg2) hnotmem
      · constructor
        · intro _ addr2 haddr2
          simp only [Option.some.injEq] at haddr2
          subst haddr2
          exact hnotmem
        · intro _
          trivial

section MembersInfoLemmas

theorem buildMembers_error_of_unregistered (im : List (Nat × MemberInfo))
    (addrs : List Nat) (pid : Nat)
    (h : ∃ a ∈ addrs, hmLookup im a = none) :
    ∃ a2, buildMembers im addrs pid = .error (.NotRegistered a2) ∧
      a2 ∈ addrs ∧ hmLookup im a2 = none := by
  induction addrs generalizing pid with
  | nil => simp at h
  | cons a t ih =>
    cases hl : hmLookup im a with
    | none =>
      refine ⟨a, ?_, by simp, hl⟩
      unfold buildMembers
      rw [hl]
    | some info =>
      rcases h with ⟨a1, ha1, hnone⟩
      rcases List.mem_cons.mp ha1 with rfl | hmem
      · rw [hl] at hnone; exact absurd hnone (by simp)
      · rcases ih (pid + 1) ⟨a1, hmem, hnone⟩ with ⟨a2, herr, hmem2, hnone2⟩
        refine ⟨a2, ?_, List.mem_cons_of_mem a hmem2, hnone2⟩
        unfold buildMembers
        rw [hl, herr]

theorem buildMembers_ok_spec (im : List (Nat × MemberInfo)) (addrs : List Nat)
    (pid : Nat) (hreg : ∀ a ∈ addrs, (hmLookup im a).isSome) :
    ∃ l, buildMembers im addrs pid = .ok l ∧
      l.map Prod.fst = addrs ∧
      (∀ i a, addrs.get? i = some a →
        ∃ info, hmLookup im a = some info ∧
          l.get? i = some (a, ⟨pid + i, a, info.enc_pk, info.signing_pk⟩)) := by
  induction addrs generalizing pid with
  | nil => exact ⟨[], rfl, rfl, by intro i a h; simp at h⟩
  | cons a t ih =>
    have ha : (hmLookup im a).isSome := hreg a (by simp)
    rcases Option.isSome_iff_exists.mp ha with ⟨info, hinfo⟩
    rcases ih (pid + 1) (fun a2 h2 => hreg a2 (List.mem_cons_of_mem a h2)) with
      ⟨l, hok, hkeys, hspec⟩
    refine ⟨(a, ⟨pid, a, info.enc_pk, info.signing_pk⟩) :: l, ?_, by simp [hkeys], ?_⟩
    · unfold buildMembers
      rw [hinfo, hok]
    · intro i a2 hget
      cases i with
      | zero =>
        simp only [List.get?_cons_zero, Option.some.injEq] at hget
        subst hget
        exact ⟨info, hinfo, by simp⟩
      | succ i1 =>
        simp only [List.get?_cons_succ] at hget
        rcases hspec i1 a2 hget with ⟨info2, hinfo2, hget2⟩
        refine ⟨info2, hinfo2, ?_⟩
        simp only [List.get?_cons_succ]
        rw [hget2]
        have : pid + (i1 + 1) = pid + 1 + i1 := by omega
        rw [this]

theorem lookup_of_nodup_keys_get {α : Type} {l : List (Nat × α)} {i : Nat}
    {k : Nat} {v : α} (hnd : (l.map Prod.fst).Nodup)
    (hget : l.get? i = some (k, v)) : l.lookup k = some v := by
  induction l generalizing i with
  | nil => simp at hget
  | cons p t ih =>
    simp only [List.map_cons, List.nodup_cons] at hnd
    cases i with
    | zero =>
      simp only [List.get?_cons_zero, Option.some.injEq] at hget
      subst hget
      rw [lookup_cons_eq, if_pos rfl]
    | succ i1 =>
      simp only [List.get?_cons_succ] at hget
      rw [lookup_cons_eq]
      have hkmem : k ∈ t.map Prod.fst :=
        List.mem_map.mpr ⟨(k, v), List.get?_mem hget, rfl⟩
      have hne : ¬ (k = p.1) := fun h => hnd.1 (h ▸ hkmem)
      rw [if_neg hne]
      exact ih hnd.2 hget

theorem keys_hmFromList_sub {α : Type} {l : List (Nat × α)} {k : Nat}
    (h : k ∈ (hmFromList l).map Prod.fst) : k ∈ l.map Prod.fst := by
  induction l using List.reverseRecOn with
  | nil => simp [hmFromList] at h
  | append_singleton t kv ih =>
    rw [hmFromList_append_single] at h
    unfold hmInsert at h
    simp only [List.map_cons, List.mem_cons] at h
    simp only [List.map_append, List.mem_append]
    rcases h with h | h
    · right; simp [h]
    · left
      apply ih
      rcases List.mem_map.mp h with ⟨p, hp, hk⟩
      exact List.mem_map.mpr ⟨p, List.mem_of_mem_filter hp, hk⟩

theorem hmFromList_length_of_nodup {α : Type} {l : List (Nat × α)}
    (h : (l.map Prod.fst).Nodup) : (hmFromList l).length = l.length := by
  induction l using List.reverseRecOn with
  | nil => rfl
  | append_singleton t kv ih =>
    have h2 := h
    simp only [List.map_append, List.map_cons, List.map_nil] at h2
    rcases List.nodup_append.mp h2 with ⟨hnd, _, hdisj⟩
    have hnotin : kv.1 ∉ t.map Prod.fst := by
      intro hmem
      exact hdisj hmem (by simp)
    rw [hmFromList_append_single]
    unfold hmInsert
    simp only [List.length_cons]
    have hfilter : (hmFromList t).filter (fun p => p.1 ≠ kv.1) = hmFromList t := by
      apply List.filter_eq_self.mpr
      intro p hp
      have hkey : p.1 ∈ (hmFromList t).map Prod.fst :=
        List.mem_map.mpr ⟨p, hp, rfl⟩
      have hkey2 : p.1 ∈ t.map Prod.fst := keys_hmFromList_sub hkey
      simp only [ne_eq, decide_eq_true_eq]
      intro hcon
      exact hnotin (hcon ▸ hkey2)
    rw [hfilter, ih hnd, List.length_append, List.length_singleton]


theorem get_members_info_eq (c : SealCommittee) (infos : List (Nat × MemberInfo))
    (hst : c.state.membersInfo = some infos) :
    c.get_members_info =
      match buildMembers (hmFromList infos) c.members 0 with
      | .error e => .error e
      | .ok l => .ok (hmFromList l) := by
  unfold SealCommittee.get_members_info
  rw [hst]


end MembersInfoLemmas

/-- A committee whose member list repeats an address, both occurrences
registered: the address-keyed member table collapses the two listed members
into a single entry (the later position wins). -/
def c7dup : SealCommittee :=
  { id := 1, threshold := 1, members := [5, 5],
    state := .Init [(5, ⟨7, 8, 0⟩)], old_committee_id := none }

/-- C7 counterexample: for a committee whose member list contains the same
registered address twice, `get_members_info` succeeds but returns a single
`ParsedMemberInfo` (with `party_id` 1) for the two listed members, so it is
not the case that every listed member gets an entry whose `party_id` is its
position (position 0 has none). -/
theorem c7_duplicate_members_counterexample :
    c7dup.members.length = 2 ∧
    c7dup.get_members_info = .ok [(5, ⟨1, 5, 7, 8⟩)] := ⟨rfl, rfl⟩

/-- C7 (amended): building the parsed member table fails with `NotRegistered`
whenever some listed address has no entry in the snapshot's registration
table (no unregistered member is silently skipped); otherwise it succeeds,
and — provided the member list has no duplicate addresses — the returned
address-keyed table has exactly one entry per listed member, whose `party_id`
is that member's position in the member list. (With duplicate addresses the
address-keyed map retains only the last position's entry.) -/
theorem c7_members_info_registration (c : SealCommittee)
    (infos : List (Nat × MemberInfo))
    (hst : c.state.membersInfo = some infos) :
    ((∃ a ∈ c.members, hmLookup (hmFromList infos) a = none) →
      ∃ a, c.get_members_info = .error (.NotRegistered a) ∧ a ∈ c.members ∧
        hmLookup (hmFromList infos) a = none) ∧
    ((∀ a ∈ c.members, (hmLookup (hmFromList infos) a).isSome) →
      ∃ m, c.get_members_info = .ok m ∧
        (c.members.Nodup →
          m.length = c.members.length ∧
          ∀ i a, c.members.get? i = some a →
            ∃ info, hmLookup (hmFromList infos) a = some info ∧
              hmLookup m a = some ⟨i, a, info.enc_pk, info.signing_pk⟩)) := by
  constructor
  · intro h
    rcases buildMembers_error_of_unregistered (hmFromList infos) c.members 0 h with
      ⟨a2, herr, hmem, hnone⟩
    refine ⟨a2, ?_, hmem, hnone⟩
    rw [get_members_info_eq c infos hst, herr]
  · intro h
    rcases buildMembers_ok_spec (hmFromList infos) c.members 0 h with
      ⟨l, hok, hkeys, hspec⟩
    refine ⟨hmFromList l, ?_, ?_⟩
    · rw [get_members_info_eq c infos hst, hok]
    · intro hnd
      have hndk : (l.map Prod.fst).Nodup := by rw [hkeys]; exact hnd
      constructor
      · rw [hmFromList_length_of_nodup hndk]
        have h7 := congrArg List.length hkeys
        simpa using h7
      · intro i a hget
        rcases hspec i a hget with ⟨info, hinfo, hgetl⟩
        refine ⟨info, hinfo, ?_⟩
        rw [hmLookup_hmFromList_of_nodup hndk]
        exact lookup_of_nodup_keys_get hndk (by simpa using hgetl)

/-- A well-formed two-member committee used to instantiate the registration
theorem. -/
def c7w : SealCommittee :=
  { id := 2, threshold := 1, members := [4, 6],
    state := .Init [(4, ⟨1, 2, 0⟩), (6, ⟨3, 9, 0⟩)], old_committee_id := none }

/-- Witness for C7's amended theorem at a concrete registered committee. -/
theorem c7_members_info_registration_witness :
    ∃ m, c7w.get_members_info = .ok m ∧
      (c7w.members.Nodup →
        m.length = c7w.members.length ∧
        ∀ i a, c7w.members.get? i = some a →
          ∃ info,
            hmLookup
              (hmFromList ([(4, ⟨1, 2, 0⟩), (6, ⟨3, 9, 0⟩)] :
                List (Nat × MemberInfo))) a = some info ∧
              hmLookup m a = some ⟨i, a, info.enc_pk, info.signing_pk⟩) :=
  (c7_members_info_registration c7w
    ([(4, ⟨1, 2, 0⟩), (6, ⟨3, 9, 0⟩)] : List (Nat × MemberInfo)) rfl).2
    (by decide)

section Claims

theorem bcsEncodeMessage_injective (m1 m2 : Message)
    (h : bcsEncodeMessage m1 = bcsEncodeMessage m2) : m1 = m2 := by
  unfold bcsEncodeMessage at h
  simp only [List.cons.injEq] at h
  cases m1; cases m2
  simp_all

/-- C8: for every message and signing keypair, verifying the signed message
against the signer's public key succeeds; signing is a deterministic function
of the canonical byte encoding; verification fails when the message is
replaced by a different one, when the signature is replaced by a different
one, or when a different public key is supplied. (The BLS primitive is
external to the repository and modelled as an idealized deterministic
scheme.) -/
theorem c8_signature_integrity (m m2 : Message) (sk pk2 : Nat)
    (s2 : BlsSignature) :
    verify_signature (sign_message m sk) (blsPkOfSk sk) = .ok () ∧
    (bcsEncodeMessage m = bcsEncodeMessage m2 →
      (sign_message m sk).signature = (sign_message m2 sk).signature) ∧
    (m2 ≠ m →
      verify_signature ⟨m2, (sign_message m sk).signature⟩ (blsPkOfSk sk) =
        .error .SignatureInvalid) ∧
    (s2 ≠ (sign_message m sk).signature →
      verify_signature ⟨m, s2⟩ (blsPkOfSk sk) = .error .SignatureInvalid) ∧
    (pk2 ≠ blsPkOfSk sk →
      verify_signature (sign_message m sk) pk2 = .error .SignatureInvalid) := by
  refine ⟨?_, ?_, ?_, ?_, ?_⟩
  · simp [verify_signature, blsVerify, sign_message, blsSign, blsPkOfSk]
  · intro h
    simp [sign_message, blsSign, h]
  · intro hne
    have henc : ¬ bcsEncodeMessage m = bcsEncodeMessage m2 :=
      fun h => hne (bcsEncodeMessage_injective m2 m h.symm)
    simp [verify_signature, blsVerify, sign_message, blsSign, blsPkOfSk, henc]
  · intro hne
    unfold verify_signature blsVerify
    have hor : ¬ s2.bytes = bcsEncodeMessage m ∨ ¬ s2.key = sk := by
      by_contra hcon
      push_neg at hcon
      apply hne
      cases s2
      simp only [sign_message, blsSign]
      simp_all
    rcases hor with h | h
    · simp [h]
    · simp [h, blsPkOfSk]
  · intro hne
    have : blsPkOfSk sk ≠ pk2 := fun h => hne h.symm
    simp [verify_signature, blsVerify, sign_message, blsSign, this]

/-- C8 witness at concrete values: valid verification succeeds, an altered
message fails, a wrong public key fails. -/
theorem c8_signature_integrity_witness :
    verify_signature (sign_message ⟨0, [1]⟩ 2) (blsPkOfSk 2) = .ok () ∧
    verify_signature ⟨⟨1, []⟩, (sign_message ⟨0, [1]⟩ 2).signature⟩
      (blsPkOfSk 2) = .error .SignatureInvalid ∧
    verify_signature (sign_message ⟨0, [1]⟩ 2) 3 = .error .SignatureInvalid :=
  ⟨(c8_signature_integrity ⟨0, [1]⟩ ⟨1, []⟩ 2 3 ⟨[9], 9⟩).1,
    (c8_signature_integrity ⟨0, [1]⟩ ⟨1, []⟩ 2 3 ⟨[9], 9⟩).2.2.1 (by decide),
    (c8_signature_integrity ⟨0, [1]⟩ ⟨1, []⟩ 2 3 ⟨[9], 9⟩).2.2.2.2 (by decide)⟩

/-- C9: a `ProcessAll` run over an empty messages directory fails with the
distinct no-files error for every persisted state (rotation or fresh, any
`old_threshold`) and every engine, before the quorum check, before any
signature verification and before any engine call (empty trace), and writes
nothing to disk. -/
theorem c9_empty_messages_dir (e : Engine) (st : DkgState) :
    processAll e st [] =
      { result := .error .NoFilesFound, finalState := st, saved := [],
        trace := [] } := rfl

end Claims

section ClaimsQuorum

/-- A benign engine: every capability succeeds and no complaints arise. -/
def engOk : Engine :=
  { mkNodes := fun l => .ok l
    newParty := .ok ()
    createMsg := .ok ⟨0, [9]⟩
    processMessage := fun m => .ok ⟨m, none⟩
    processMessageCheckPk := fun m _ => .ok ⟨m, none⟩
    merge := fun _ => .ok (⟨[]⟩, 42)
    completeRotation := fun _ _ => .ok 77
    completeFresh := fun _ => .ok 99 }

/-- A persisted fresh-DKG configuration with two registered parties. -/
def cfgFresh2 : InitializedConfig :=
  { my_party_id := 0
    nodes := [⟨0, 10, 1⟩, ⟨1, 11, 1⟩]
    committee_id := 5
    threshold := 2
    signing_pks := [(0, 3), (1, 4)]
    old_threshold := none
    new_to_old_mapping := none
    expected_old_pks := none
    my_old_share := none
    my_old_pk := none }

def stFresh2 : DkgState :=
  { config := cfgFresh2, my_message := none, received_messages := [],
    processed_messages := [], confirmation := none, output := none }

/-- Party 0's correctly signed message (its signing key 3 is registered). -/
def sm0 : SignedMessage := sign_message ⟨0, [1]⟩ 3

/-- C3 counterexample: a fresh DKG with two registered parties and two
supplied messages, both from party 0, passes the quorum check (it is purely a
count check) and — with a benign engine — the whole command succeeds, instead
of failing with `InsufficientMessages` as the one-message-per-registered-party
reading of the claim would require. -/
theorem c3_duplicate_sender_counterexample :
    stFresh2.config.old_threshold = none ∧
    stFresh2.config.nodes.length = 2 ∧
    sm0.message.sender = 0 ∧
    (processAll engOk stFresh2 [sm0, sm0]).result = .ok () :=
  ⟨rfl, rfl, rfl, rfl⟩

/-- C3 (amended): before any message is passed to the engine, `ProcessAll`
runs a quorum check that is purely a count check (sender identities are not
inspected): with `old_threshold` absent (fresh DKG) it fails with
`InsufficientMessages` exactly when the number of supplied messages differs
from the number of persisted nodes; with `old_threshold = t` (rotation) it
fails with `InsufficientMessages` exactly when fewer than `t` messages are
supplied. On a quorum failure nothing is verified, processed or saved. -/
theorem c3_quorum_count_check (e : Engine) (st : DkgState)
    (msgs : List SignedMessage) (hne : msgs ≠ []) :
    (∀ t, st.config.old_threshold = some t →
      (((processAll e st msgs).result =
          .error (.InsufficientMessages t msgs.length)) ↔ msgs.length < t) ∧
      (msgs.length < t →
        processAll e st msgs =
          { result := .error (.InsufficientMessages t msgs.length),
            finalState := st, saved := [], trace := [] })) ∧
    (st.config.old_threshold = none →
      (((processAll e st msgs).result =
          .error (.InsufficientMessages st.config.nodes.length msgs.length)) ↔
        msgs.length ≠ st.config.nodes.length) ∧
      (msgs.length ≠ st.config.nodes.length →
        processAll e st msgs =
          { result := .error (.InsufficientMessages st.config.nodes.length
              msgs.length),
            finalState := st, saved := [], trace := [] })) := by
  constructor
  · intro t hot
    have hqc : quorumCheck st.config msgs.length =
        if msgs.length < t then .error (.InsufficientMessages t msgs.length)
        else .ok () := by
      unfold quorumCheck
      rw [hot]
    constructor
    · constructor
      · intro hres
        by_contra hnot
        rw [if_neg hnot] at hqc
        exact processAll_not_insufficient e st msgs t msgs.length hne hqc hres
      · intro hlt
        rw [if_pos hlt] at hqc
        rw [processAll_quorum_error e st msgs _ hne hqc]
    · intro hlt
      rw [if_pos hlt] at hqc
      exact processAll_quorum_error e st msgs _ hne hqc
  · intro hot
    have hqc : quorumCheck st.config msgs.length =
        if msgs.length ≠ st.config.nodes.length then
          .error (.InsufficientMessages st.config.nodes.length msgs.length)
        else .ok () := by
      unfold quorumCheck
      rw [hot]
    constructor
    · constructor
      · intro hres
        by_contra hnot
        rw [if_neg (not_ne_iff.mpr hnot)] at hqc
        exact processAll_not_insufficient e st msgs st.config.nodes.length
          msgs.length hne hqc hres
      · intro hlt
        rw [if_pos hlt] at hqc
        rw [processAll_quorum_error e st msgs _ hne hqc]
    · intro hlt
      rw [if_pos hlt] at hqc
      exact processAll_quorum_error e st msgs _ hne hqc

/-- C3 witness: one supplied message against the two-party fresh
configuration fails the count check with `InsufficientMessages 2 1`, leaving
state, trace and disk untouched. -/
theorem c3_quorum_count_check_witness :
    ((processAll engOk stFresh2 [sm0]).result =
      .error (.InsufficientMessages stFresh2.config.nodes.length 1) ↔
        (1 : Nat) ≠ stFresh2.config.nodes.length) ∧
    processAll engOk stFresh2 [sm0] =
      { result := .error (.InsufficientMessages stFresh2.config.nodes.length 1),
        finalState := stFresh2, saved := [], trace := [] } := by
  have h := (c3_quorum_count_check engOk stFresh2 [sm0] (by simp)).2 rfl
  exact ⟨h.1, h.2 (by decide)⟩

end ClaimsQuorum

section ClaimsComplaint

/-- An engine that raises a complaint against party 1's message and accepts
everything else. -/
def engCplt : Engine :=
  { engOk with
    processMessage := fun m =>
      if m.sender = 1 then .ok ⟨m, some 7⟩ else .ok ⟨m, none⟩ }

/-- A persisted fresh-DKG configuration with three registered parties. -/
def cfgFresh3 : InitializedConfig :=
  { my_party_id := 0
    nodes := [⟨0, 10, 1⟩, ⟨1, 11, 1⟩, ⟨2, 12, 1⟩]
    committee_id := 5
    threshold := 2
    signing_pks := [(0, 3), (1, 4), (2, 5)]
    old_threshold := none
    new_to_old_mapping := none
    expected_old_pks := none
    my_old_share := none
    my_old_pk := none }

def stFresh3 : DkgState :=
  { config := cfgFresh3, my_message := none, received_messages := [],
    processed_messages := [], confirmation := none, output := none }

def sm1 : SignedMessage := sign_message ⟨1, [2]⟩ 4

def sm2c : SignedMessage := sign_message ⟨2, [3]⟩ 5

/-- C1 counterexample: a run in which party 1's message produces a complaint
aborts immediately with the protocol-complaint error and never touches party
2's message — but `saved = []`: `DkgState::save` is never called on this
path, so the processed-message list accumulated before the complaint (here
party 0's message, present only in the in-memory final state) is NOT appended
to the protocol state on disk. -/
theorem c1_complaint_not_persisted_counterexample :
    processAll engCplt stFresh3 [sm0, sm1, sm2c] =
      { result := .error (.ProtocolComplaint 1),
        finalState := { stFresh3 with processed_messages := [⟨⟨0, [1]⟩, none⟩] },
        saved := [],
        trace := [.verified 0, .engineProcessed 0, .verified 1,
          .engineProcessed 1] } := rfl

/-- C1 (amended): if processing one message returns a complaint, the command
aborts immediately with the protocol-complaint error: no later message is
verified or processed, merge and completion are never invoked, and the
processed messages accumulated before the complaint are kept only in the
in-memory state — nothing is written to disk on this path (`saved = []`); the
on-disk protocol state is left as it was. -/
theorem c1_complaint_abort (e : Engine) (st : DkgState)
    (pre : List SignedMessage) (mc : SignedMessage) (post : List SignedMessage)
    (procs : List ProcessedMessage) (evs evC : List Event) (s : Nat)
    (hq : quorumCheck st.config (pre ++ mc :: post).length = .ok ())
    (hp : e.newParty = .ok ())
    (hpre : processLoop e st.config pre = (.ok (), procs, evs))
    (hmc : processOne e st.config mc = (.error (.ProtocolComplaint s), evC)) :
    processAll e st (pre ++ mc :: post) =
      { result := .error (.ProtocolComplaint s),
        finalState :=
          { st with processed_messages := st.processed_messages ++ procs },
        saved := [],
        trace := evs ++ evC } ∧
    Event.merged ∉ evs ++ evC ∧
    (∀ b, Event.completed b ∉ evs ++ evC) := by
  have hcons : processLoop e st.config (mc :: post) =
      (.error (.ProtocolComplaint s), [], evC) := by
    unfold processLoop
    rw [hmc]
  have hloop : processLoop e st.config (pre ++ mc :: post) =
      (.error (.ProtocolComplaint s), procs, evs ++ evC) := by
    rw [processLoop_append, hpre]
    simp only [hcons]
    simp
  have hevs : ∀ ev ∈ evs,
      (∃ s2, ev = .verified s2) ∨ (∃ s2, ev = .engineProcessed s2) := by
    intro ev hev
    apply processLoop_event_kinds e st.config pre ev
    rw [hpre]
    exact hev
  have hevC : evC = [] ∨ evC = [.verified mc.message.sender] ∨
      evC = [.verified mc.message.sender, .engineProcessed mc.message.sender] := by
    have h2 := processOne_events_shape e st.config mc
    rw [hmc] at h2
    exact h2
  refine ⟨?_, ?_, ?_⟩
  · exact processAll_loop_error e st (pre ++ mc :: post) _ procs (evs ++ evC)
      (by simp) hq hp hloop
  · intro hmem
    rcases List.mem_append.mp hmem with hm | hm
    · rcases hevs _ hm with ⟨s2, h⟩ | ⟨s2, h⟩ <;> exact absurd h (by simp)
    · rcases hevC with h | h | h <;> subst h <;> simp_all
  · intro b hmem
    rcases List.mem_append.mp hmem with hm | hm
    · rcases hevs _ hm with ⟨s2, h⟩ | ⟨s2, h⟩ <;> exact absurd h (by simp)
    · rcases hevC with h | h | h <;> subst h <;> simp_all

/-- C1 witness: the amended theorem applied to the concrete
complaint-against-party-1 run. -/
theorem c1_complaint_abort_witness :
    processAll engCplt stFresh3 ([sm0] ++ sm1 :: [sm2c]) =
      { result := .error (.ProtocolComplaint 1),
        finalState :=
          { stFresh3 with processed_messages :=
              stFresh3.processed_messages ++ [⟨⟨0, [1]⟩, none⟩] },
        saved := [],
        trace := ([.verified 0, .engineProcessed 0] : List Event) ++
          [.verified 1, .engineProcessed 1] } ∧
    Event.merged ∉ ([.verified 0, .engineProcessed 0] : List Event) ++
      [.verified 1, .engineProcessed 1] ∧
    (∀ b, Event.completed b ∉ ([.verified 0, .engineProcessed 0] : List Event) ++
      [.verified 1, .engineProcessed 1]) :=
  c1_complaint_abort engCplt stFresh3 [sm0] sm1 [sm2c] [⟨⟨0, [1]⟩, none⟩]
    [.verified 0, .engineProcessed 0] [.verified 1, .engineProcessed 1] 1
    rfl rfl rfl rfl

end ClaimsComplaint

section ClaimsPersistOutput

/-- A persisted fresh-DKG configuration with a single registered party. -/
def cfgFresh1 : InitializedConfig :=
  { my_party_id := 0
    nodes := [⟨0, 10, 1⟩]
    committee_id := 5
    threshold := 1
    signing_pks := [(0, 3)]
    old_threshold := none
    new_to_old_mapping := none
    expected_old_pks := none
    my_old_share := none
    my_old_pk := none }

def stFresh1 : DkgState :=
  { config := cfgFresh1, my_message := none, received_messages := [],
    processed_messages := [], confirmation := none, output := none }

/-- C2 evidence: a fully successful `ProcessAll` run (one-party fresh DKG,
one valid signed message, benign engine) sets the confirmation and the final
output in the in-memory state and prints them, but `saved = []`: the only
`DkgState::save` call in `ProcessAll` sits in the merge-complaint branch, so
on the success path the protocol state on disk is never rewritten and the
confirmation/output survive only in the console output. -/
theorem c2_success_not_persisted :
    processAll engOk stFresh1 [sm0] =
      { result := .ok (),
        finalState :=
          { stFresh1 with
            processed_messages := [⟨⟨0, [1]⟩, none⟩],
            confirmation := some (⟨[]⟩, 42),
            output := some 99 },
        saved := [],
        trace := [.verified 0, .engineProcessed 0, .merged,
          .completed false] } := rfl

end ClaimsPersistOutput

section ClaimsRotationLookup

/-- C10: during a rotation `ProcessAll`, a correctly signed message whose
sender has no entry in the persisted new-to-old mapping (a new joiner), or
whose mapped old party id has no published old partial public key, makes the
whole command fail with the corresponding lookup error; the failure happens
after that message's signature verification (the `verified` event is in the
trace) and before the message reaches the engine's rotation entry point (no
`engineProcessed` event for it), and nothing is written to disk. -/
theorem c10_rotation_lookup_abort (e : Engine) (st : DkgState)
    (pre : List SignedMessage) (mc : SignedMessage) (post : List SignedMessage)
    (procs : List ProcessedMessage) (evs : List Event)
    (t spk : Nat) (mapping : List (Nat × Nat))
    (hot : st.config.old_threshold = some t)
    (hq : quorumCheck st.config (pre ++ mc :: post).length = .ok ())
    (hp : e.newParty = .ok ())
    (hpre : processLoop e st.config pre = (.ok (), procs, evs))
    (hpk : hmLookup st.config.signing_pks mc.message.sender = some spk)
    (hver : verify_signature mc spk = .ok ())
    (hmap : st.config.new_to_old_mapping = some mapping) :
    (hmLookup mapping mc.message.sender = none →
      processAll e st (pre ++ mc :: post) =
        { result := .error (.MappingNotFound mc.message.sender),
          finalState :=
            { st with processed_messages := st.processed_messages ++ procs },
          saved := [],
          trace := evs ++ [.verified mc.message.sender] }) ∧
    (∀ oldId eps, hmLookup mapping mc.message.sender = some oldId →
      st.config.expected_old_pks = some eps →
      hmLookup eps oldId = none →
      processAll e st (pre ++ mc :: post) =
        { result := .error (.PartialPkNotFound oldId),
          finalState :=
            { st with processed_messages := st.processed_messages ++ procs },
          saved := [],
          trace := evs ++ [.verified mc.message.sender] }) := by
  have hsome : st.config.old_threshold.isSome = true := by rw [hot]; rfl
  constructor
  · intro hmlk
    have hone : processOne e st.config mc =
        (.error (.MappingNotFound mc.message.sender),
          [.verified mc.message.sender]) := by
      unfold processOne
      simp only [hpk, hver]
      unfold routeMessage
      rw [if_pos hsome, hmap]
      simp only [hmlk]
      simp
    have hcons : processLoop e st.config (mc :: post) =
        (.error (.MappingNotFound mc.message.sender), [],
          [.verified mc.message.sender]) := by
      unfold processLoop
      rw [hone]
    have hloop : processLoop e st.config (pre ++ mc :: post) =
        (.error (.MappingNotFound mc.message.sender), procs,
          evs ++ [.verified mc.message.sender]) := by
      rw [processLoop_append, hpre]
      simp only [hcons]
      simp
    exact processAll_loop_error e st (pre ++ mc :: post) _ procs _
      (by simp) hq hp hloop
  · intro oldId eps hmlk heps hpkn
    have hone : processOne e st.config mc =
        (.error (.PartialPkNotFound oldId), [.verified mc.message.sender]) := by
      unfold processOne
      simp only [hpk, hver]
      unfold routeMessage
      rw [if_pos hsome, hmap]
      simp only [hmlk, heps, hpkn]
      simp
    have hcons : processLoop e st.config (mc :: post) =
        (.error (.PartialPkNotFound oldId), [],
          [.verified mc.message.sender]) := by
      unfold processLoop
      rw [hone]
    have hloop : processLoop e st.config (pre ++ mc :: post) =
        (.error (.PartialPkNotFound oldId), procs,
          evs ++ [.verified mc.message.sender]) := by
      rw [processLoop_append, hpre]
      simp only [hcons]
      simp
    exact processAll_loop_error e st (pre ++ mc :: post) _ procs _
      (by simp) hq hp hloop

/-- A persisted rotation configuration: two new parties, party 0 continuing
(mapped to old party 0), party 1 a new joiner with no mapping entry. -/
def cfgRot : InitializedConfig :=
  { my_party_id := 0
    nodes := [⟨0, 10, 1⟩, ⟨1, 11, 1⟩]
    committee_id := 5
    threshold := 2
    signing_pks := [(0, 3), (1, 4)]
    old_threshold := some 1
    new_to_old_mapping := some [(0, 0)]
    expected_old_pks := some [(0, 20)]
    my_old_share := some 6
    my_old_pk := some 6 }

def stRot : DkgState :=
  { config := cfgRot, my_message := none, received_messages := [],
    processed_messages := [], confirmation := none, output := none }

/-- C10 witness: the new joiner (party 1) submits a correctly signed message
during rotation; the command fails with the mapping-lookup error right after
signature verification. -/
theorem c10_rotation_lookup_abort_witness :
    (hmLookup [(0, 0)] sm1.message.sender = none →
      processAll engOk stRot ([] ++ sm1 :: []) =
        { result := .error (.MappingNotFound sm1.message.sender),
          finalState :=
            { stRot with processed_messages := stRot.processed_messages ++ [] },
          saved := [],
          trace := [] ++ [.verified sm1.message.sender] }) ∧
    (∀ oldId eps, hmLookup [(0, 0)] sm1.message.sender = some oldId →
      stRot.config.expected_old_pks = some eps →
      hmLookup eps oldId = none →
      processAll engOk stRot ([] ++ sm1 :: []) =
        { result := .error (.PartialPkNotFound oldId),
          finalState :=
            { stRot with processed_messages := stRot.processed_messages ++ [] },
          saved := [],
          trace := [] ++ [.verified sm1.message.sender] }) :=
  c10_rotation_lookup_abort engOk stRot [] sm1 [] [] [] 1 4 [(0, 0)]
    rfl rfl rfl rfl rfl rfl rfl

end ClaimsRotationLookup

section ClaimsCreateMessage

theorem createMessage_resolve_reduce (e : Engine) (env : ChainEnv)
    (my_address committee_id : Nat) (keys : KeysFile) (osh : Option Nat)
    (committee : SealCommittee) (members_info : List (Nat × ParsedMemberInfo))
    (info : ParsedMemberInfo)
    (hfetch : env.fetchCommittee committee_id = .ok committee)
    (hinit : committee.is_init = .ok ())
    (hmem : committee.contains my_address = true)
    (hmi : committee.get_members_info = .ok members_info)
    (hlook : hmLookup members_info my_address = some info)
    (henc : keys.enc_pk = info.enc_pk) (hsig : keys.signing_pk = info.signing_pk) :
    createMessage e env my_address committee_id keys osh =
      match resolveRotation env committee my_address osh with
      | .error er => .error er
      | .ok (old_threshold, mapping, eps) =>
        assembleState e committee_id keys committee members_info info.party_id
          osh (osh.map g2MulGenerator) old_threshold mapping eps := by
  unfold createMessage
  simp only [hfetch, hinit, hmem, hmi, hlook, henc, hsig, not_true,
    Bool.true_eq_false, if_false, ne_eq, eq_self_iff_true, or_self,
    not_false_iff, if_true]

theorem resolveRotation_fresh_some_share (env : ChainEnv)
    (committee : SealCommittee) (my_address sh : Nat)
    (h : committee.old_committee_id = none) :
    resolveRotation env committee my_address (some sh) = .error .RoleMismatch := by
  unfold resolveRotation
  rw [h]
  rfl

theorem resolveRotation_new_member_with_share (env : ChainEnv)
    (committee oldC : SealCommittee) (my_address sh oid : Nat)
    (infos2 : List PartialKeyServerInfo)
    (h : committee.old_committee_id = some oid)
    (hfo : env.fetchCommittee oid = .ok oldC)
    (hfp : env.fetchPartialInfos oid = .ok infos2)
    (hnm : my_address ∉ oldC.members) :
    resolveRotation env committee my_address (some sh) =
      .error .InvalidRotationRole := by
  unfold resolveRotation
  rw [h]
  simp only [hfo, hfp]
  have hc : oldC.contains my_address = false := by
    unfold SealCommittee.contains
    simp [hnm]
  simp [hc]

theorem resolveRotation_old_member_without_share (env : ChainEnv)
    (committee oldC : SealCommittee) (my_address oid : Nat)
    (infos2 : List PartialKeyServerInfo)
    (h : committee.old_committee_id = some oid)
    (hfo : env.fetchCommittee oid = .ok oldC)
    (hfp : env.fetchPartialInfos oid = .ok infos2)
    (hm : my_address ∈ oldC.members) :
    resolveRotation env committee my_address none =
      .error .InvalidRotationRole := by
  unfold resolveRotation
  rw [h]
  simp only [hfo, hfp]
  have hc : oldC.contains my_address = true := by
    unfold SealCommittee.contains
    simp [hm]
  simp [hc]

/-- C4: old-share presence must match the caller's role. Once the caller
resolves against the fetched committee, a fresh DKG (no old committee id)
rejects any supplied old share with `RoleMismatch`; in a rotation, a caller
not in the old committee who supplies an old share, or a caller in the old
committee who omits it, fails with `InvalidRotationRole`. -/
theorem c4_old_share_role (e : Engine) (env : ChainEnv)
    (my_address committee_id : Nat) (keys : KeysFile)
    (committee : SealCommittee) (members_info : List (Nat × ParsedMemberInfo))
    (info : ParsedMemberInfo)
    (hfetch : env.fetchCommittee committee_id = .ok committee)
    (hinit : committee.is_init = .ok ())
    (hmem : committee.contains my_address = true)
    (hmi : committee.get_members_info = .ok members_info)
    (hlook : hmLookup members_info my_address = some info)
    (henc : keys.enc_pk = info.enc_pk)
    (hsig : keys.signing_pk = info.signing_pk) :
    (committee.old_committee_id = none → ∀ sh,
      createMessage e env my_address committee_id keys (some sh) =
        .error .RoleMismatch) ∧
    (∀ oid oldC infos2, committee.old_committee_id = some oid →
      env.fetchCommittee oid = .ok oldC →
      env.fetchPartialInfos oid = .ok infos2 →
      ((∀ sh, my_address ∉ oldC.members →
          createMessage e env my_address committee_id keys (some sh) =
            .error .InvalidRotationRole) ∧
        (my_address ∈ oldC.members →
          createMessage e env my_address committee_id keys none =
            .error .InvalidRotationRole))) := by
  refine ⟨?_, ?_⟩
  · intro hold sh
    rw [createMessage_resolve_reduce e env my_address committee_id keys (some sh)
        committee members_info info hfetch hinit hmem hmi hlook henc hsig,
      resolveRotation_fresh_some_share env committee my_address sh hold]
  · intro oid oldC infos2 hold hfo hfp
    refine ⟨?_, ?_⟩
    · intro sh hnm
      rw [createMessage_resolve_reduce e env my_address committee_id keys (some sh)
          committee members_info info hfetch hinit hmem hmi hlook henc hsig,
        resolveRotation_new_member_with_share env committee oldC my_address sh oid
          infos2 hold hfo hfp hnm]
    · intro hm
      rw [createMessage_resolve_reduce e env my_address committee_id keys none
          committee members_info info hfetch hinit hmem hmi hlook henc hsig,
        resolveRotation_old_member_without_share env committee oldC my_address oid
          infos2 hold hfo hfp hm]

/-- C5: resolution of the caller against the fetched committee fails with
`InvalidState` when the committee is not in `Init` state, with `NotAMember`
when the caller's address is not in the member list, and with `KeyMismatch`
when either registered public key differs from the local identity's; and the
command proceeds past resolution only when the committee is `Init`, the
caller is a member, and both registered keys equal the local ones. -/
theorem c5_resolve_caller_checks (e : Engine) (env : ChainEnv)
    (my_address committee_id : Nat) (keys : KeysFile) (old_share : Option Nat)
    (committee : SealCommittee)
    (hfetch : env.fetchCommittee committee_id = .ok committee) :
    ((∀ mi, committee.state ≠ .Init mi) →
      createMessage e env my_address committee_id keys old_share =
        .error (.InvalidState committee.id)) ∧
    ((∃ mi, committee.state = .Init mi) → my_address ∉ committee.members →
      createMessage e env my_address committee_id keys old_share =
        .error .NotAMember) ∧
    (∀ members_info info, (∃ mi, committee.state = .Init mi) →
      my_address ∈ committee.members →
      committee.get_members_info = .ok members_info →
      hmLookup members_info my_address = some info →
      (keys.enc_pk ≠ info.enc_pk ∨ keys.signing_pk ≠ info.signing_pk) →
      createMessage e env my_address committee_id keys old_share =
        .error .KeyMismatch) ∧
    (∀ r, createMessage e env my_address committee_id keys old_share = .ok r →
      (∃ mi, committee.state = .Init mi) ∧ my_address ∈ committee.members ∧
      ∃ members_info info, committee.get_members_info = .ok members_info ∧
        hmLookup members_info my_address = some info ∧
        keys.enc_pk = info.enc_pk ∧ keys.signing_pk = info.signing_pk) := by
  refine ⟨?_, ?_, ?_, ?_⟩
  · intro hnotinit
    have hin : committee.is_init = .error (.InvalidState committee.id) := by
      unfold SealCommittee.is_init
      cases hs : committee.state with
      | Init mi => exact absurd hs (hnotinit mi)
      | PostDKG a b c d => rfl
      | Finalized => rfl
    unfold createMessage
    simp only [hfetch, hin]
  · rintro ⟨mi, hinitstate⟩ hnm
    have hin : committee.is_init = .ok () := by
      unfold SealCommittee.is_init
      rw [hinitstate]
    have hc : committee.contains my_address = false := by
      unfold SealCommittee.contains
      simp [hnm]
    unfold createMessage
    simp [hfetch, hin, hc]
  · intro members_info info hinit2 hmem2 hmi hlook hne
    rcases hinit2 with ⟨mi, hinitstate⟩
    have hin : committee.is_init = .ok () := by
      unfold SealCommittee.is_init
      rw [hinitstate]
    have hc : committee.contains my_address = true := by
      unfold SealCommittee.contains
      simp [hmem2]
    unfold createMessage
    simp only [hfetch, hin, hc, hmi, hlook]
    rcases hne with h | h <;> simp [h]
  · intro r hok
    unfold createMessage at hok
    simp only [hfetch] at hok
    cases hin : committee.is_init with
    | error er =>
      simp only [hin] at hok
      exact absurd hok (by simp)
    | ok u =>
      simp only [hin] at hok
      have hinitstate : ∃ mi, committee.state = .Init mi := by
        unfold SealCommittee.is_init at hin
        cases hs : committee.state with
        | Init mi => exact ⟨mi, rfl⟩
        | PostDKG a b c d => rw [hs] at hin; exact absurd hin (by simp)
        | Finalized => rw [hs] at hin; exact absurd hin (by simp)
      cases hc : committee.contains my_address with
      | false =>
        simp [hc] at hok
      | true =>
        have hmem : my_address ∈ committee.members := by
          have := hc
          unfold SealCommittee.contains at this
          simpa using this
        simp only [hc, not_true, Bool.true_eq_false, if_false] at hok
        cases hmi : committee.get_members_info with
        | error er =>
          simp only [hmi] at hok
          exact absurd hok (by simp)
        | ok members_info =>
          simp only [hmi] at hok
          cases hlook : hmLookup members_info my_address with
          | none =>
            simp only [hlook] at hok
            exact absurd hok (by simp)
          | some info =>
            simp only [hlook] at hok
            by_cases hkm : keys.enc_pk ≠ info.enc_pk ∨ keys.signing_pk ≠ info.signing_pk
            · simp [hkm] at hok
            · push_neg at hkm
              exact ⟨hinitstate, hmem, members_info, info, rfl, hlook, hkm.1, hkm.2⟩

/-- Concrete chain data for the `CreateMessage` witnesses. -/
def miA : MemberInfo := ⟨1, 2, 0⟩

def cRotNew : SealCommittee :=
  { id := 32, threshold := 1, members := [4, 6],
    state := .Init [(4, miA), (6, ⟨7, 8, 0⟩)], old_committee_id := some 33 }

def cOld : SealCommittee :=
  { id := 33, threshold := 1, members := [6], state := .Finalized,
    old_committee_id := none }

def cPost : SealCommittee :=
  { id := 31, threshold := 1, members := [4], state := .Finalized,
    old_committee_id := none }

def envW : ChainEnv :=
  { fetchCommittee := fun cid =>
      if cid = 32 then .ok cRotNew
      else if cid = 33 then .ok cOld
      else if cid = 31 then .ok cPost
      else .error ()
    fetchPartialInfos := fun cid =>
      if cid = 33 then .ok [⟨40, 0, 20⟩] else .error () }

/-- Local identity matching member 4's registration in `cRotNew`. -/
def keysW : KeysFile := ⟨9, 1, 9, 2⟩

/-- C4 witness: caller 4 is a new member of the rotating committee (not in
the old committee) yet supplies an old share: `InvalidRotationRole`. -/
theorem c4_old_share_role_witness :
    createMessage engOk envW 4 32 keysW (some 6) = .error .InvalidRotationRole :=
  (((c4_old_share_role engOk envW 4 32 keysW cRotNew
      [(6, ⟨1, 6, 7, 8⟩), (4, ⟨0, 4, 1, 2⟩)] ⟨0, 4, 1, 2⟩
      rfl rfl rfl rfl rfl rfl rfl).2 33 cOld [⟨40, 0, 20⟩]
      rfl rfl rfl).1) 6 (by decide)

/-- C5 witness: against a committee past `Init` (`Finalized`), `CreateMessage`
fails with `InvalidState`. -/
theorem c5_resolve_caller_checks_witness :
    createMessage engOk envW 4 31 keysW none = .error (.InvalidState 31) :=
  (c5_resolve_caller_checks engOk envW 4 31 keysW none cPost rfl).1
    (by intro mi h; simp [cPost] at h)

end ClaimsCreateMessage
